import Mathlib

/-
Shallow embedding of `src/fdtd1d.py` (class `FDTD1D`): a 1D FDTD solver on a
staggered grid with lossy media, one 6-pole dispersive material region,
configurable boundary conditions, a total-field source and per-step energy
bookkeeping.  Numpy float/complex arithmetic is idealised as exact rational
arithmetic (`ℚ`, and `CQ` for complex); arrays are total functions `ℕ → ℚ`
read only on `[0, N)`.  `np.searchsorted` (side `left`) on the sorted grid is
the count of coordinates strictly below the query.  In-place numpy slice
assignments evaluate their right-hand side before writing, so each one is a
pure per-index update; the per-index translation below is the semantics of
the slices for the well-formed index ranges the program uses
(`1 ≤ iE_in ≤ iE_out ≤ N - 1`); outside those ranges the python code would
fault on shape mismatches, which the claims never exercise.
-/

/-- Complex numbers with exact rational components, mirroring numpy's
`complex128` values used for the dispersive model (idealised, no rounding). -/
@[ext]
structure CQ where
  re : ℚ
  im : ℚ
  deriving DecidableEq, Repr

instance : Zero CQ := ⟨⟨0, 0⟩⟩

instance : One CQ := ⟨⟨1, 0⟩⟩

instance : Add CQ := ⟨fun x y => ⟨x.re + y.re, x.im + y.im⟩⟩

instance : Neg CQ := ⟨fun x => ⟨-x.re, -x.im⟩⟩

instance : Sub CQ := ⟨fun x y => ⟨x.re - y.re, x.im - y.im⟩⟩

instance : Mul CQ := ⟨fun x y =>
  ⟨x.re * y.re - x.im * y.im, x.re * y.im + x.im * y.re⟩⟩

/-- Complex division `x/y` as `x * conj y / |y|²`, the semantics of numpy's
complex division (with the junk value 0 at `y = 0`, never exercised). -/
instance : Div CQ := ⟨fun x y =>
  ⟨(x.re * y.re + x.im * y.im) / (y.re * y.re + y.im * y.im),
   (x.im * y.re - x.re * y.im) / (y.re * y.re + y.im * y.im)⟩⟩

/-- Embeds a real (here: rational) scalar into `CQ`, as numpy does when a
real array meets a complex one. -/
def CQ.ofRat (q : ℚ) : CQ := ⟨q, 0⟩

theorem CQ.re_add (x y : CQ) : (x + y).re = x.re + y.re := rfl

theorem CQ.zero_re : (0 : CQ).re = 0 := rfl

theorem CQ.zero_im : (0 : CQ).im = 0 := rfl

theorem CQ.mul_zero' (x : CQ) : x * (0 : CQ) = 0 := by
  show CQ.mk _ _ = CQ.mk _ _
  ext <;> simp [CQ.zero_re, CQ.zero_im]

theorem CQ.ofRat_zero : CQ.ofRat 0 = 0 := rfl

/-- Constant `MU0 = 1.0` from the source. -/
def MU0 : ℚ := 1

/-- Constant `EPS0 = 1.0` from the source. -/
def EPS0 : ℚ := 1

/-- Constant `C0 = 1 / np.sqrt(MU0*EPS0)`; with `MU0 = EPS0 = 1` the float square root
is exactly 1, so `C0 = 1` exactly. -/
def C0 : ℚ := 1

/-- The `1.60218e-19` conversion factor applied to both silver constant
arrays in the source. -/
def eVcharge : ℚ := 1.60218e-19

/-- Array `c_silver` from the source: six complex residues, each scaled by
`1.60218e-19`.  Indices `≥ 6` (absent in the numpy array) give 0. -/
def cSilver : ℕ → CQ
  | 0 => ⟨5.987e-1 * eVcharge, 4.195e3 * eVcharge⟩
  | 1 => ⟨-2.211e-1 * eVcharge, 2.680e-1 * eVcharge⟩
  | 2 => ⟨-4.240 * eVcharge, 7.324e2 * eVcharge⟩
  | 3 => ⟨6.391e-1 * eVcharge, -7.186e-2 * eVcharge⟩
  | 4 => ⟨1.806 * eVcharge, 4.563 * eVcharge⟩
  | 5 => ⟨1.443 * eVcharge, -8.219e1 * eVcharge⟩
  | _ => 0

/-- Array `a_silver` from the source: six complex poles, each scaled by
`1.60218e-19`.  Indices `≥ 6` give 0. -/
def aSilver : ℕ → CQ
  | 0 => ⟨-2.502e-2 * eVcharge, -8.626e-3 * eVcharge⟩
  | 1 => ⟨-2.021e-1 * eVcharge, -9.407e-1 * eVcharge⟩
  | 2 => ⟨-1.467e1 * eVcharge, -1.338 * eVcharge⟩
  | 3 => ⟨-2.997e-1 * eVcharge, -4.034 * eVcharge⟩
  | 4 => ⟨-1.896 * eVcharge, -4.808 * eVcharge⟩
  | 5 => ⟨-9.396 * eVcharge, -6.477 * eVcharge⟩
  | _ => 0

/-- Semantics of `np.searchsorted(x, v)` with the default `side='left'` on the sorted
coordinate array of length `n`: the number of entries strictly below `v`. -/
def searchsorted (n : ℕ) (x : ℕ → ℚ) (v : ℚ) : ℕ :=
  ((List.range n).filter (fun i => decide (x i < v))).length

/-- Pointwise update of one array slot, the semantics of a single-element
numpy assignment `arr[j] = v`. -/
def upd (g : ℕ → ℚ) (j : ℕ) (v : ℚ) : ℕ → ℚ :=
  fun i => if i = j then v else g i

theorem upd_same (g : ℕ → ℚ) (j : ℕ) : upd g j (g j) = g := by
  funext i
  unfold upd
  by_cases h : i = j
  · subst h; simp
  · simp [h]

/-- The mutable state of one `FDTD1D` instance: grid, fields, material
arrays, energy logs, clock, registered total-field sources, dispersive
regions, per-pole auxiliary currents `J` (shape `(6, N)`, complex) and the
precomputed dispersive coefficients `(k_mat, beta_mat, den_mat, coef_mat)`
(`None` until `set_material_region` runs, mirroring the empty python list). -/
@[ext]
structure FDTD1D where
  N : ℕ
  xE : ℕ → ℚ
  xH : ℕ → ℚ
  dx : ℚ
  bounds : String × String
  e : ℕ → ℚ
  h : ℕ → ℚ
  h_old : ℕ → ℚ
  eps : ℕ → ℚ
  cond : ℕ → ℚ
  energyE : List ℚ
  energyH : List ℚ
  energy : List ℚ
  time : ℚ
  total_field : List (ℕ × (ℚ → ℚ → ℚ))
  material_regions : List (ℚ × ℚ × ℚ × ℚ)
  J : ℕ → ℕ → CQ
  material_coefficients : Option ((ℕ → CQ) × (ℕ → CQ) × ℚ × ℚ)

/-- Constructor `FDTD1D.__init__(xE, bounds)`: H nodes at midpoints, `dx = xE[1]-xE[0]`,
zero fields, vacuum material, empty logs, clock 0, no sources, no dispersive
region, zero auxiliary currents.  `n` is the length of the coordinate
array. -/
def init (n : ℕ) (xE : ℕ → ℚ) (bounds : String × String) : FDTD1D :=
  { N := n
    xE := xE
    xH := fun i => (xE i + xE (i + 1)) / 2
    dx := xE 1 - xE 0
    bounds := bounds
    e := fun _ => 0
    h := fun _ => 0
    h_old := fun _ => 0
    eps := fun _ => 1
    cond := fun _ => 0
    energyE := []
    energyH := []
    energy := []
    time := 0
    total_field := []
    material_regions := []
    J := fun _ _ => 0
    material_coefficients := none }

/-- Method `set_initial_condition`: copy the given samples into `e`. -/
def set_initial_condition (s : FDTD1D) (ic : ℕ → ℚ) : FDTD1D :=
  { s with e := ic }

/-- Method `set_permittivity_regions`: each `(start, end, value)` resolves to the
index range `[searchsorted start, searchsorted end)` and overwrites `eps`
there; later regions win on overlap (sequential loop). -/
def set_permittivity_regions (s : FDTD1D) (regions : List (ℚ × ℚ × ℚ)) :
    FDTD1D :=
  { s with
    eps := regions.foldl
      (fun acc r => fun i =>
        if searchsorted s.N s.xE r.1 ≤ i ∧ i < searchsorted s.N s.xE r.2.1
        then r.2.2 else acc i)
      s.eps }

/-- Method `set_conductivity_regions`: same range resolution, writing `cond`. -/
def set_conductivity_regions (s : FDTD1D) (regions : List (ℚ × ℚ × ℚ)) :
    FDTD1D :=
  { s with
    cond := regions.foldl
      (fun acc r => fun i =>
        if searchsorted s.N s.xE r.1 ≤ i ∧ i < searchsorted s.N s.xE r.2.1
        then r.2.2 else acc i)
      s.cond }

/-- The dispersive coefficient computation of `set_material_region`
(lines 102-107), from one region's `Einf` (`rl.2.2.1`) and conductivity
(`rl.2.2.2`) and the time step:
`k_mat = (1 + a_silver*dt/2)/(1 - a_silver*dt/2)`,
`beta_mat = (EPS0*c_silver*dt)/(1 - a_silver*dt/2)`,
`aux = 2*EPS0*Einf + np.sum(2*Re(beta_mat))`, `den_mat = aux + cond*dt`,
`coef_mat = (aux - cond*dt)/den_mat`. -/
def matCoefs (rl : ℚ × ℚ × ℚ × ℚ) (dt : ℚ) :
    (ℕ → CQ) × (ℕ → CQ) × ℚ × ℚ :=
  let k : ℕ → CQ := fun p =>
    (1 + aSilver p * CQ.ofRat dt / CQ.ofRat 2) /
      (1 - aSilver p * CQ.ofRat dt / CQ.ofRat 2)
  let beta : ℕ → CQ := fun p =>
    CQ.ofRat EPS0 * cSilver p * CQ.ofRat dt /
      (1 - aSilver p * CQ.ofRat dt / CQ.ofRat 2)
  let aux : ℚ :=
    2 * EPS0 * rl.2.2.1 +
      ((List.range 6).map (fun p => 2 * (beta p).re)).sum
  (k, beta, aux + rl.2.2.2 * dt, (aux - rl.2.2.2 * dt) / (aux + rl.2.2.2 * dt))

/-- Method `set_material_region(regions, dt)`: stores the region list, writes
`eps`/`cond` for EVERY region in input order, then computes the dispersive
coefficients once with the loop variables as left by the last iteration,
i.e. with the LAST region's `Einf` and `cond_value` (python loop-variable
leak).  An empty list would raise `NameError` at the coefficient step in the
source; here it leaves the coefficients unchanged (never exercised). -/
def setMaterialRegion (s : FDTD1D) (regions : List (ℚ × ℚ × ℚ × ℚ))
    (dt : ℚ) : FDTD1D :=
  { s with
    material_regions := regions
    eps := regions.foldl
      (fun acc r => fun i =>
        if searchsorted s.N s.xE r.1 ≤ i ∧ i < searchsorted s.N s.xE r.2.1
        then r.2.2.1 else acc i)
      s.eps
    cond := regions.foldl
      (fun acc r => fun i =>
        if searchsorted s.N s.xE r.1 ≤ i ∧ i < searchsorted s.N s.xE r.2.1
        then r.2.2.2 else acc i)
      s.cond
    material_coefficients :=
      match regions.getLast? with
      | none => s.material_coefficients
      | some rl => some (matCoefs rl dt) }

/-- Method `add_totalfield(xs, sourceFunction)`: `np.where(self.xE > xs)[0][0]`
fails with `IndexError` (modelled as `none`) when no grid coordinate exceeds
`xs`; otherwise the pair `(index, waveform)` is appended to the source
list. -/
def addTotalfield (s : FDTD1D) (xs : ℚ) (f : ℚ → ℚ → ℚ) : Option FDTD1D :=
  match (List.range s.N).find? (fun i => decide (xs < s.xE i)) with
  | none => none
  | some j => some { s with total_field := s.total_field ++ [(j, f)] }

/-- Index `iE_in` recomputed each step from the FIRST entry of
`material_regions` (line `start_x, end_x, *_ = self.material_regions[0]`). -/
def FDTD1D.iEin (s : FDTD1D) : ℕ :=
  match s.material_regions with
  | [] => 0
  | r :: _ => searchsorted s.N s.xE r.1

/-- Index `iE_out` from the first region's end coordinate. -/
def FDTD1D.iEout (s : FDTD1D) : ℕ :=
  match s.material_regions with
  | [] => 0
  | r :: _ => searchsorted s.N s.xE r.2.1

/-- H update, line 114: `h[:] -= dt/dx/MU0 * (e[1:] - e[:-1])` over the
whole H array (indices `i` with `i + 1 < N`). -/
def hStep (s : FDTD1D) (dt : ℚ) : ℕ → ℚ :=
  fun i =>
    if i + 1 < s.N then s.h i - dt / s.dx / MU0 * (s.e (i + 1) - s.e i)
    else s.h i

/-- Source injection into H (lines 116-119): if a source is registered, the
first `(index, waveform)` pair adds `waveform(xH[isource], time)` to
`h[isource]`, with the clock still at its pre-step value. -/
def hAfterSource (s : FDTD1D) (dt : ℚ) : ℕ → ℚ :=
  match s.total_field.head? with
  | none => hStep s dt
  | some (j, f) =>
      upd (hStep s dt) j (hStep s dt j + f (s.xH j) s.time)

/-- The non-dispersive E update formula applied at one node (lines 134-136,
148-151 and 153): reads `eps`, `cond`, the current E sample and the curl
`h[i] - h[i-1]`. -/
def plainE (s : FDTD1D) (dt : ℚ) (h e : ℕ → ℚ) (i : ℕ) : ℚ :=
  1 / (s.eps i / dt + s.cond i / 2) *
    ((s.eps i / dt - s.cond i / 2) * e i - 1 / s.dx * (h i - h (i - 1)))

/-- Non-dispersive path, line 153: update `e[1:-1]`. -/
def ePlainStage (s : FDTD1D) (dt : ℚ) (h : ℕ → ℚ) : ℕ → ℚ :=
  fun i =>
    if 1 ≤ i ∧ i + 1 < s.N then plainE s dt h s.e i else s.e i

/-- Dispersive path, lines 134-136: update `e[1:iE_in]` (left of the
region) with the plain formula. -/
def eLeftStage (s : FDTD1D) (dt : ℚ) (h : ℕ → ℚ) : ℕ → ℚ :=
  fun i =>
    if 1 ≤ i ∧ i < s.iEin then plainE s dt h s.e i else s.e i

/-- Lines 138-140: `Jsum[i] = Σ_p Re((1+k_p) * J[p,i])` accumulated over the
six poles with the pre-update currents. -/
def Jsum (s : FDTD1D) (k : ℕ → CQ) (i : ℕ) : ℚ :=
  ((List.range 6).map (fun p => ((1 + k p) * s.J p i).re)).sum

/-- Line 142: inside the region (`iE_in ≤ i < iE_out`),
`e = coef*e + 2*dt/den * (-(h[i]-h[i-1])/dx - Jsum[i])`; elsewhere the array
still holds the post-left-stage values. -/
def eDispStage (s : FDTD1D) (dt : ℚ) (h : ℕ → ℚ) (k : ℕ → CQ)
    (den coef : ℚ) : ℕ → ℚ :=
  fun i =>
    if s.iEin ≤ i ∧ i < s.iEout then
      coef * eLeftStage s dt h i +
        2 * dt / den * (-(h i - h (i - 1)) / s.dx - Jsum s k i)
    else eLeftStage s dt h i

/-- Lines 144-145: for every pole `p`, over the FULL grid,
`J[p,:] = k_p*J[p,:] + beta_p*(e - e_old)/dt`, where `e` is the array as it
stands right after the in-region update (the right side of the region and
the boundaries are still pending) and `e_old` is the pre-step snapshot. -/
def Jstage (s : FDTD1D) (dt : ℚ) (h : ℕ → ℚ) (k beta : ℕ → CQ)
    (den coef : ℚ) : ℕ → ℕ → CQ :=
  fun p i =>
    k p * s.J p i +
      beta p * CQ.ofRat ((eDispStage s dt h k den coef i - s.e i) / dt)

/-- Lines 148-151: update `e[iE_out:-1]` (right of the region) with the
plain formula, reading the post-in-region array. -/
def eRightStage (s : FDTD1D) (dt : ℚ) (h : ℕ → ℚ) (k : ℕ → CQ)
    (den coef : ℚ) : ℕ → ℚ :=
  fun i =>
    if s.iEout ≤ i ∧ i + 1 < s.N then
      plainE s dt h (eDispStage s dt h k den coef) i
    else eDispStage s dt h k den coef i

/-- Source injection into E (lines 155-156): adds
`waveform(xE[isource], time)` at the source index, the clock having advanced
by `dt/2` (line 121) but not yet by the second half step (line 158). -/
def eSrc (s : FDTD1D) (dt : ℚ) (e : ℕ → ℚ) : ℕ → ℚ :=
  match s.total_field.head? with
  | none => e
  | some (j, f) => upd e j (e j + f (s.xE j) (s.time + dt / 2))

/-- The E array after the full E update of one step (plain or dispersive
path) and the E-source injection, i.e. the array to which the boundary
conditions are then applied.  When a dispersive region is configured but
`set_material_region` never ran, the source raises `IndexError` before any
E write, so the array is unchanged. -/
def eCore (s : FDTD1D) (dt : ℚ) (h2 : ℕ → ℚ) : ℕ → ℚ :=
  match s.material_regions, s.material_coefficients with
  | _ :: _, some c => eRightStage s dt h2 c.1 c.2.2.1 c.2.2.2
  | _ :: _, none => s.e
  | [], _ => ePlainStage s dt h2

def eAfterUpdate (s : FDTD1D) (dt : ℚ) : ℕ → ℚ :=
  eSrc s dt (eCore s dt (hAfterSource s dt))

/-- The auxiliary currents after one step: updated by the dispersive
recursion when a region with coefficients is active, untouched otherwise. -/
def Jcore (s : FDTD1D) (dt : ℚ) (h2 : ℕ → ℚ) : ℕ → ℕ → CQ :=
  match s.material_regions, s.material_coefficients with
  | _ :: _, some c => Jstage s dt h2 c.1 c.2.1 c.2.2.1 c.2.2.2
  | _, _ => s.J

def Jafter (s : FDTD1D) (dt : ℚ) : ℕ → ℕ → CQ :=
  Jcore s dt (hAfterSource s dt)

/-- Left boundary dispatch (lines 160-170).  `eSnap` is `e_old_left`, the
pre-step `e[1]` captured at line 111; `e` and `h` are the arrays at
boundary-application time.  An unrecognized token yields `none`
(`ValueError` in the source). -/
def boundLeft (b : String) (eSnap dx : ℚ) (n : ℕ) (dt : ℚ)
    (h e : ℕ → ℚ) : Option (ℕ → ℚ) :=
  if b = "pec" then some (upd e 0 0)
  else if b = "mur" then
    some (upd e 0 (eSnap + (C0 * dt - dx) / (C0 * dt + dx) * (e 1 - e 0)))
  else if b = "pmc" then
    some (upd e 0 (e 0 - 2 * dt / dx / EPS0 * h 0))
  else if b = "periodic" then some (upd e 0 (e (n - 2)))
  else none

/-- Right boundary dispatch (lines 172-182).  `eSnap` is `e_old_right`, the
pre-step `e[-2]` captured at line 112. -/
def boundRight (b : String) (eSnap dx : ℚ) (n : ℕ) (dt : ℚ)
    (h e : ℕ → ℚ) : Option (ℕ → ℚ) :=
  if b = "pec" then some (upd e (n - 1) 0)
  else if b = "mur" then
    some (upd e (n - 1)
      (eSnap + (C0 * dt - dx) / (C0 * dt + dx) * (e (n - 2) - e (n - 1))))
  else if b = "pmc" then
    some (upd e (n - 1) (e (n - 1) + 2 * dt / dx / EPS0 * h (n - 2)))
  else if b = "periodic" then some (upd e (n - 1) (e 1))
  else none

/-- Line 185: `0.5 * np.dot(e, dx * eps * e)` over all `N` E nodes. -/
def energyEVal (n : ℕ) (dx : ℚ) (eps e : ℕ → ℚ) : ℚ :=
  1 / 2 * ((List.range n).map (fun i => e i * (dx * eps i * e i))).sum

/-- Line 186: `0.5 * np.dot(h_old, dx * MU0 * h)` over the `N - 1` H
nodes. -/
def energyHVal (n : ℕ) (dx : ℚ) (hOld hNew : ℕ → ℚ) : ℚ :=
  1 / 2 *
    ((List.range (n - 1)).map (fun i => hOld i * (dx * MU0 * hNew i))).sum

/-- Tail of a step after the field updates: apply the two boundary
conditions in order (lines 160-182), then append the three energy samples
and refresh `h_old` (lines 184-188).  On an unrecognized token the python
exception escapes, leaving the partially updated object: the returned state
keeps every mutation made so far and the energy logs untouched. -/
def finish (s : FDTD1D) (dt : ℚ) (h2 e2 : ℕ → ℚ) (Jn : ℕ → ℕ → CQ) :
    FDTD1D × Option String :=
  let sMid : FDTD1D :=
    { s with h := h2, e := e2, J := Jn, time := s.time + dt / 2 + dt / 2 }
  match boundLeft s.bounds.1 (s.e 1) s.dx s.N dt h2 e2 with
  | none => (sMid, some "Unknown boundary condition")
  | some e3 =>
      match boundRight s.bounds.2 (s.e (s.N - 2)) s.dx s.N dt h2 e3 with
      | none => ({ sMid with e := e3 }, some "Unknown boundary condition")
      | some e4 =>
          ({ sMid with
              e := e4
              energyE := s.energyE ++ [energyEVal s.N s.dx s.eps e4]
              energyH := s.energyH ++ [energyHVal s.N s.dx s.h_old h2]
              energy := s.energy ++
                [energyEVal s.N s.dx s.eps e4 +
                  energyHVal s.N s.dx s.h_old h2]
              h_old := h2 }, none)

/-- One call of `FDTD1D.step(dt)` (lines 110-199, minus the plotting block
which is modelled separately as `stepTrace`): snapshot, H update, H-source,
half clock advance, E update (plain or dispersive with the J recursion),
E-source, second half clock advance, boundaries, energy accounting.  The
second component is the pending exception (`ValueError` on an unrecognized
boundary token; `IndexError` when a dispersive region is configured without
coefficients), the first the object state as the exception leaves it. -/
def step (s : FDTD1D) (dt : ℚ) : FDTD1D × Option String :=
  match s.material_regions, s.material_coefficients with
  | _ :: _, none =>
      ({ s with h := hAfterSource s dt, time := s.time + dt / 2 },
        some "IndexError")
  | _, _ => finish s dt (hAfterSource s dt) (eAfterUpdate s dt) (Jafter s dt)

/-- Iterated stepping: `stepN dt n s` performs `n` calls of `step`,
following the object state through each call (as `run_until` does). -/
def stepN (dt : ℚ) : ℕ → FDTD1D → FDTD1D
  | 0, s => s
  | n + 1, s => stepN dt n (step s dt).1

/-- The E array right after the left boundary has been applied, i.e. the
array the right boundary condition reads. -/
def eAfterLeftBound (s : FDTD1D) (dt : ℚ) : ℕ → ℚ :=
  match boundLeft s.bounds.1 (s.e 1) s.dx s.N dt (hAfterSource s dt)
      (eAfterUpdate s dt) with
  | none => eAfterUpdate s dt
  | some e3 => e3

/-- External side effects of one step. -/
inductive VizEffect where
  | plotE : VizEffect
  | plotH : VizEffect
  | ylim : VizEffect
  | axvspan : ℚ → ℚ → VizEffect
  | pause : ℚ → VizEffect
  | grid : VizEffect
  | cla : VizEffect
  deriving DecidableEq, Repr

/-- Effect trace of one `step` call (lines 190-199): when the step completes
without raising, it plots E and H, sets the y limits, shades every
configured material region, `plt.pause(0.01)` (a blocking render), draws the
grid and clears the axes.  A step that raises never reaches this block. -/
def stepTrace (s : FDTD1D) (dt : ℚ) : List VizEffect :=
  if (step s dt).2 = none then
    [VizEffect.plotE, VizEffect.plotH, VizEffect.ylim] ++
      s.material_regions.map (fun r => VizEffect.axvspan r.1 r.2.1) ++
      [VizEffect.pause (1 / 100), VizEffect.grid, VizEffect.cla]
  else []

/-- Stored `k_mat` of the dispersive coefficients (junk 0 when unset). -/
def kOf (s : FDTD1D) : ℕ → CQ :=
  match s.material_coefficients with
  | some c => c.1
  | none => fun _ => 0

/-- Stored `beta_mat` (junk 0 when unset). -/
def betaOf (s : FDTD1D) : ℕ → CQ :=
  match s.material_coefficients with
  | some c => c.2.1
  | none => fun _ => 0

/-- Stored `den_mat` (junk 0 when unset). -/
def denOf (s : FDTD1D) : ℚ :=
  match s.material_coefficients with
  | some c => c.2.2.1
  | none => 0

/-- Stored `coef_mat` (junk 0 when unset). -/
def coefOf (s : FDTD1D) : ℚ :=
  match s.material_coefficients with
  | some c => c.2.2.2
  | none => 0

/-- A boundary token the dispatch chains of lines 160-182 recognize. -/
def recognized (b : String) : Prop :=
  b = "pec" ∨ b = "mur" ∨ b = "pmc" ∨ b = "periodic"

instance (b : String) : Decidable (recognized b) := by
  unfold recognized
  infer_instance

/-- A small vacuum cavity: 5 E nodes at 0..4, both boundaries periodic, an
asymmetric initial E profile. -/
def sPer : FDTD1D :=
  set_initial_condition (init 5 (fun i => (i : ℚ)) ("periodic", "periodic"))
    (fun i => if i = 1 then 1 else if i = 3 then 3 else 0)

/-- Same cavity with both boundaries Mur. -/
def sMur : FDTD1D :=
  set_initial_condition (init 5 (fun i => (i : ℚ)) ("mur", "mur"))
    (fun i => if i = 1 then 1 else if i = 3 then 3 else 0)

/-- Same cavity with PEC boundaries, used for plain-path evaluations. -/
def sPec : FDTD1D :=
  set_initial_condition (init 5 (fun i => (i : ℚ)) ("pec", "pec"))
    (fun i => if i = 1 then 1 else if i = 3 then 3 else 0)

/-- A 6-node grid with a dispersive silver region on `[2,4)` (grid indices 2
and 3), a unit E sample at node 4 (right of the region) and `dt = 1`. -/
def sDisp : FDTD1D :=
  setMaterialRegion
    (set_initial_condition (init 6 (fun i => (i : ℚ)) ("pec", "pec"))
      (fun i => if i = 4 then 1 else 0))
    [(2, 4, 5, 0)] 1

/-- Two dispersive regions: the same first region `[2,3)` in both
configurations, the second adding `Einf = 2` on `[4,5)`. -/
def sTwoRegions : FDTD1D :=
  setMaterialRegion
    (set_initial_condition (init 6 (fun i => (i : ℚ)) ("pec", "pec"))
      (fun i => if i = 4 then 1 else 0))
    [(2, 3, 1, 0), (4, 5, 2, 0)] 1

/-- The first region of `sTwoRegions` configured alone. -/
def sOneRegion : FDTD1D :=
  setMaterialRegion
    (set_initial_condition (init 6 (fun i => (i : ℚ)) ("pec", "pec"))
      (fun i => if i = 4 then 1 else 0))
    [(2, 3, 1, 0)] 1

/-- A 4-node grid at coordinates 0..3 for the out-of-domain source test. -/
def sSmall : FDTD1D := init 4 (fun i => (i : ℚ)) ("pec", "pec")

/-- A state whose left boundary token is unrecognized. -/
def sBadLeft : FDTD1D :=
  set_initial_condition (init 5 (fun i => (i : ℚ)) ("dirichlet", "pec"))
    (fun i => if i = 2 then 1 else 0)

/-- A state whose right boundary token is unrecognized. -/
def sBadRight : FDTD1D :=
  set_initial_condition (init 5 (fun i => (i : ℚ)) ("pec", "dirichlet"))
    (fun i => if i = 2 then 1 else 0)

theorem CQ.add_im (x y : CQ) : (x + y).im = x.im + y.im := rfl

theorem CQ.sub_re (x y : CQ) : (x - y).re = x.re - y.re := rfl

theorem CQ.sub_im (x y : CQ) : (x - y).im = x.im - y.im := rfl

theorem CQ.mul_re (x y : CQ) : (x * y).re = x.re * y.re - x.im * y.im := rfl

theorem CQ.mul_im (x y : CQ) : (x * y).im = x.re * y.im + x.im * y.re := rfl

theorem CQ.div_re (x y : CQ) :
    (x / y).re = (x.re * y.re + x.im * y.im) / (y.re * y.re + y.im * y.im) :=
  rfl

theorem CQ.div_im (x y : CQ) :
    (x / y).im = (x.im * y.re - x.re * y.im) / (y.re * y.re + y.im * y.im) :=
  rfl

theorem CQ.one_re : (1 : CQ).re = 1 := rfl

theorem CQ.one_im : (1 : CQ).im = 0 := rfl

theorem CQ.ofRat_re (q : ℚ) : (CQ.ofRat q).re = q := rfl

theorem CQ.ofRat_im (q : ℚ) : (CQ.ofRat q).im = 0 := rfl

theorem boundLeft_pec (es dx : ℚ) (n : ℕ) (dt : ℚ) (h e : ℕ → ℚ) :
    boundLeft "pec" es dx n dt h e = some (upd e 0 0) := by
  simp [boundLeft]

theorem boundLeft_mur (es dx : ℚ) (n : ℕ) (dt : ℚ) (h e : ℕ → ℚ) :
    boundLeft "mur" es dx n dt h e =
      some (upd e 0 (es + (C0 * dt - dx) / (C0 * dt + dx) * (e 1 - e 0))) := by
  simp [boundLeft]

theorem boundLeft_pmc (es dx : ℚ) (n : ℕ) (dt : ℚ) (h e : ℕ → ℚ) :
    boundLeft "pmc" es dx n dt h e =
      some (upd e 0 (e 0 - 2 * dt / dx / EPS0 * h 0)) := by
  simp [boundLeft]

theorem boundLeft_periodic (es dx : ℚ) (n : ℕ) (dt : ℚ) (h e : ℕ → ℚ) :
    boundLeft "periodic" es dx n dt h e = some (upd e 0 (e (n - 2))) := by
  simp [boundLeft]

theorem boundRight_pec (es dx : ℚ) (n : ℕ) (dt : ℚ) (h e : ℕ → ℚ) :
    boundRight "pec" es dx n dt h e = some (upd e (n - 1) 0) := by
  simp [boundRight]

theorem boundRight_mur (es dx : ℚ) (n : ℕ) (dt : ℚ) (h e : ℕ → ℚ) :
    boundRight "mur" es dx n dt h e =
      some (upd e (n - 1)
        (es + (C0 * dt - dx) / (C0 * dt + dx) * (e (n - 2) - e (n - 1)))) := by
  simp [boundRight]

theorem boundRight_pmc (es dx : ℚ) (n : ℕ) (dt : ℚ) (h e : ℕ → ℚ) :
    boundRight "pmc" es dx n dt h e =
      some (upd e (n - 1) (e (n - 1) + 2 * dt / dx / EPS0 * h (n - 2))) := by
  simp [boundRight]

theorem boundRight_periodic (es dx : ℚ) (n : ℕ) (dt : ℚ) (h e : ℕ → ℚ) :
    boundRight "periodic" es dx n dt h e = some (upd e (n - 1) (e 1)) := by
  simp [boundRight]

theorem boundLeft_unrecognized (b : String) (es dx : ℚ) (n : ℕ) (dt : ℚ)
    (h e : ℕ → ℚ) (hb : ¬ recognized b) :
    boundLeft b es dx n dt h e = none := by
  unfold recognized at hb
  push_neg at hb
  simp [boundLeft, hb.1, hb.2.1, hb.2.2.1, hb.2.2.2]

theorem boundRight_unrecognized (b : String) (es dx : ℚ) (n : ℕ) (dt : ℚ)
    (h e : ℕ → ℚ) (hb : ¬ recognized b) :
    boundRight b es dx n dt h e = none := by
  unfold recognized at hb
  push_neg at hb
  simp [boundRight, hb.1, hb.2.1, hb.2.2.1, hb.2.2.2]

theorem boundLeft_apply_ne (b : String) (es dx : ℚ) (n : ℕ) (dt : ℚ)
    (h e e3 : ℕ → ℚ) (hbl : boundLeft b es dx n dt h e = some e3) (i : ℕ)
    (hi : i ≠ 0) : e3 i = e i := by
  unfold boundLeft at hbl
  split_ifs at hbl <;> injection hbl with hb <;> subst hb <;> simp [upd, hi]

theorem boundRight_apply_ne (b : String) (es dx : ℚ) (n : ℕ) (dt : ℚ)
    (h e e4 : ℕ → ℚ) (hbr : boundRight b es dx n dt h e = some e4) (i : ℕ)
    (hi : i ≠ n - 1) : e4 i = e i := by
  unfold boundRight at hbr
  split_ifs at hbr <;> injection hbr with hb <;> subst hb <;> simp [upd, hi]

theorem finish_fst_J (s : FDTD1D) (dt : ℚ) (h2 e2 : ℕ → ℚ)
    (Jn : ℕ → ℕ → CQ) : (finish s dt h2 e2 Jn).1.J = Jn := by
  unfold finish
  split
  · rfl
  · split <;> rfl

theorem finish_fst_h (s : FDTD1D) (dt : ℚ) (h2 e2 : ℕ → ℚ)
    (Jn : ℕ → ℕ → CQ) : (finish s dt h2 e2 Jn).1.h = h2 := by
  unfold finish
  split
  · rfl
  · split <;> rfl

theorem finish_fst_time (s : FDTD1D) (dt : ℚ) (h2 e2 : ℕ → ℚ)
    (Jn : ℕ → ℕ → CQ) :
    (finish s dt h2 e2 Jn).1.time = s.time + dt / 2 + dt / 2 := by
  unfold finish
  split
  · rfl
  · split <;> rfl

theorem finish_fst_total_field (s : FDTD1D) (dt : ℚ) (h2 e2 : ℕ → ℚ)
    (Jn : ℕ → ℕ → CQ) :
    (finish s dt h2 e2 Jn).1.total_field = s.total_field := by
  unfold finish
  split
  · rfl
  · split <;> rfl

theorem step_fst_total_field (s : FDTD1D) (dt : ℚ) :
    (step s dt).1.total_field = s.total_field := by
  unfold step
  rcases hmr : s.material_regions with _ | ⟨r, rest⟩ <;>
    rcases hmc : s.material_coefficients with _ | c <;>
      simp [hmr, hmc, finish_fst_total_field]

theorem step_fst_J (s : FDTD1D) (dt : ℚ) :
    (step s dt).1.J = Jafter s dt := by
  unfold step Jafter
  rcases hmr : s.material_regions with _ | ⟨r, rest⟩ <;>
    rcases hmc : s.material_coefficients with _ | c <;>
      simp [hmr, hmc, finish_fst_J, Jafter, Jcore]

theorem step_fst_h (s : FDTD1D) (dt : ℚ)
    (hmc : s.material_regions = [] ∨ (s.material_coefficients).isSome = true) :
    (step s dt).1.h = hAfterSource s dt := by
  unfold step
  rcases hmr : s.material_regions with _ | ⟨r, rest⟩ <;>
    rcases hc : s.material_coefficients with _ | c <;>
      simp_all [finish_fst_h]

theorem step_ok_shape (s : FDTD1D) (dt : ℚ) (hok : (step s dt).2 = none) :
    s.material_regions = [] ∨ (s.material_coefficients).isSome = true := by
  rcases hmr : s.material_regions with _ | ⟨r, rest⟩
  · exact Or.inl rfl
  rcases hc : s.material_coefficients with _ | c
  · unfold step at hok
    simp [hmr, hc] at hok
  · exact Or.inr (by simp [hc])

theorem step_eq_finish (s : FDTD1D) (dt : ℚ)
    (hmc : s.material_regions = [] ∨ (s.material_coefficients).isSome = true) :
    step s dt =
      finish s dt (hAfterSource s dt) (eAfterUpdate s dt) (Jafter s dt) := by
  unfold step
  rcases hmr : s.material_regions with _ | ⟨r, rest⟩ <;>
    rcases hc : s.material_coefficients with _ | c <;>
      simp_all

theorem step_ok_e_interior (s : FDTD1D) (dt : ℚ) (i : ℕ)
    (hok : (step s dt).2 = none) (h0 : i ≠ 0) (h1 : i ≠ s.N - 1) :
    (step s dt).1.e i = eAfterUpdate s dt i := by
  have hsh := step_ok_shape s dt hok
  rw [step_eq_finish s dt hsh] at hok ⊢
  rcases hbl : boundLeft s.bounds.1 (s.e 1) s.dx s.N dt (hAfterSource s dt)
      (eAfterUpdate s dt) with _ | e3
  · simp [finish, hbl] at hok
  rcases hbr : boundRight s.bounds.2 (s.e (s.N - 2)) s.dx s.N dt
      (hAfterSource s dt) e3 with _ | e4
  · simp [finish, hbl, hbr] at hok
  have he : (finish s dt (hAfterSource s dt) (eAfterUpdate s dt)
      (Jafter s dt)).1.e = e4 := by
    simp [finish, hbl, hbr]
  rw [he, boundRight_apply_ne _ _ _ _ _ _ _ _ hbr i h1,
    boundLeft_apply_ne _ _ _ _ _ _ _ _ hbl i h0]

theorem finish_eq_of_left_none (s : FDTD1D) (dt : ℚ) (h2 e2 : ℕ → ℚ)
    (Jn : ℕ → ℕ → CQ)
    (hbl : boundLeft s.bounds.1 (s.e 1) s.dx s.N dt h2 e2 = none) :
    finish s dt h2 e2 Jn =
      ({ s with h := h2, e := e2, J := Jn, time := s.time + dt / 2 + dt / 2 },
        some "Unknown boundary condition") := by
  simp only [finish, hbl]

theorem finish_eq_of_right_none (s : FDTD1D) (dt : ℚ) (h2 e2 e3 : ℕ → ℚ)
    (Jn : ℕ → ℕ → CQ)
    (hbl : boundLeft s.bounds.1 (s.e 1) s.dx s.N dt h2 e2 = some e3)
    (hbr : boundRight s.bounds.2 (s.e (s.N - 2)) s.dx s.N dt h2 e3 = none) :
    finish s dt h2 e2 Jn =
      ({ s with h := h2, e := e3, J := Jn, time := s.time + dt / 2 + dt / 2 },
        some "Unknown boundary condition") := by
  simp only [finish, hbl, hbr]

theorem finish_eq_of_some (s : FDTD1D) (dt : ℚ) (h2 e2 e3 e4 : ℕ → ℚ)
    (Jn : ℕ → ℕ → CQ)
    (hbl : boundLeft s.bounds.1 (s.e 1) s.dx s.N dt h2 e2 = some e3)
    (hbr : boundRight s.bounds.2 (s.e (s.N - 2)) s.dx s.N dt h2 e3 = some e4) :
    finish s dt h2 e2 Jn =
      ({ s with
          h := h2
          e := e4
          J := Jn
          time := s.time + dt / 2 + dt / 2
          energyE := s.energyE ++ [energyEVal s.N s.dx s.eps e4]
          energyH := s.energyH ++ [energyHVal s.N s.dx s.h_old h2]
          energy := s.energy ++
            [energyEVal s.N s.dx s.eps e4 + energyHVal s.N s.dx s.h_old h2]
          h_old := h2 }, none) := by
  simp only [finish, hbl, hbr]

theorem step_ok_parts (s : FDTD1D) (dt : ℚ) (hok : (step s dt).2 = none) :
    ∃ e3 e4,
      boundLeft s.bounds.1 (s.e 1) s.dx s.N dt (hAfterSource s dt)
          (eAfterUpdate s dt) = some e3 ∧
      boundRight s.bounds.2 (s.e (s.N - 2)) s.dx s.N dt (hAfterSource s dt)
          e3 = some e4 ∧
      (step s dt).1 =
        { s with
            h := hAfterSource s dt
            e := e4
            J := Jafter s dt
            time := s.time + dt / 2 + dt / 2
            energyE := s.energyE ++
              [energyEVal s.N s.dx s.eps e4]
            energyH := s.energyH ++
              [energyHVal s.N s.dx s.h_old (hAfterSource s dt)]
            energy := s.energy ++
              [energyEVal s.N s.dx s.eps e4 +
                energyHVal s.N s.dx s.h_old (hAfterSource s dt)]
            h_old := hAfterSource s dt } := by
  have hsh := step_ok_shape s dt hok
  rw [step_eq_finish s dt hsh] at hok ⊢
  rcases hbl : boundLeft s.bounds.1 (s.e 1) s.dx s.N dt (hAfterSource s dt)
      (eAfterUpdate s dt) with _ | e3
  · rw [finish_eq_of_left_none s dt _ _ _ hbl] at hok
    simp at hok
  rcases hbr : boundRight s.bounds.2 (s.e (s.N - 2)) s.dx s.N dt
      (hAfterSource s dt) e3 with _ | e4
  · rw [finish_eq_of_right_none s dt _ _ _ _ hbl hbr] at hok
    simp at hok
  exact ⟨e3, e4, rfl, hbr, by rw [finish_eq_of_some s dt _ _ _ _ _ hbl hbr]⟩

theorem CQ.add_zero' (x : CQ) : x + (0 : CQ) = x := by
  show CQ.mk _ _ = _
  ext <;> simp [CQ.zero_re, CQ.zero_im]

theorem CQ.zero_add' (x : CQ) : (0 : CQ) + x = x := by
  show CQ.mk _ _ = _
  ext <;> simp [CQ.zero_re, CQ.zero_im]

theorem hAfterSource_of_none (s : FDTD1D) (dt : ℚ)
    (hs : s.total_field = []) : hAfterSource s dt = hStep s dt := by
  unfold hAfterSource
  rw [hs]
  rfl

theorem hAfterSource_of_zero (s : FDTD1D) (j : ℕ) (f : ℚ → ℚ → ℚ) (dt : ℚ)
    (hs : s.total_field = [(j, f)]) (hwf : ∀ x t, f x t = 0) :
    hAfterSource s dt = hStep s dt := by
  unfold hAfterSource
  rw [hs]
  show upd (hStep s dt) j (hStep s dt j + f (s.xH j) s.time) = hStep s dt
  rw [hwf, add_zero, upd_same]

theorem eSrc_of_none (s : FDTD1D) (dt : ℚ) (e : ℕ → ℚ)
    (hs : s.total_field = []) : eSrc s dt e = e := by
  unfold eSrc
  rw [hs]
  rfl

theorem eSrc_of_zero (s : FDTD1D) (j : ℕ) (f : ℚ → ℚ → ℚ) (dt : ℚ)
    (e : ℕ → ℚ) (hs : s.total_field = [(j, f)]) (hwf : ∀ x t, f x t = 0) :
    eSrc s dt e = e := by
  unfold eSrc
  rw [hs]
  show upd e j (e j + f (s.xE j) (s.time + dt / 2)) = e
  rw [hwf, add_zero, upd_same]

theorem eAfterLeftBound_of_some (s : FDTD1D) (dt : ℚ) (e3 : ℕ → ℚ)
    (hbl : boundLeft s.bounds.1 (s.e 1) s.dx s.N dt (hAfterSource s dt)
      (eAfterUpdate s dt) = some e3) : eAfterLeftBound s dt = e3 := by
  unfold eAfterLeftBound
  rw [hbl]

theorem boundLeft_some_of_recognized (b : String) (es dx : ℚ) (n : ℕ)
    (dt : ℚ) (h e : ℕ → ℚ) (hb : recognized b) :
    ∃ e3, boundLeft b es dx n dt h e = some e3 := by
  rcases hb with rfl | rfl | rfl | rfl
  · exact ⟨_, boundLeft_pec es dx n dt h e⟩
  · exact ⟨_, boundLeft_mur es dx n dt h e⟩
  · exact ⟨_, boundLeft_pmc es dx n dt h e⟩
  · exact ⟨_, boundLeft_periodic es dx n dt h e⟩

/-- Claim C7: every completing call of `step(dt)` appends exactly one entry
to each energy sequence, with `energyE = 0.5*Σ e_i*dx*eps_i*e_i` over the
post-step E, `energyH = 0.5*Σ h_old_i*dx*MU0*H_i` pairing the H array as it
stood before this step's H update (equal to the `h_old` attribute for every
state the API can produce, hypothesis `hho`) with the post-update H, and
`energy` their sum; afterwards `h_old` is the post-update H. -/
theorem c7_energy_accounting (s : FDTD1D) (dt : ℚ)
    (hok : (step s dt).2 = none) (hho : s.h_old = s.h) :
    (step s dt).1.energyE =
      s.energyE ++ [energyEVal s.N s.dx s.eps ((step s dt).1.e)] ∧
    (step s dt).1.energyH =
      s.energyH ++ [energyHVal s.N s.dx s.h ((step s dt).1.h)] ∧
    (step s dt).1.energy =
      s.energy ++ [energyEVal s.N s.dx s.eps ((step s dt).1.e) +
        energyHVal s.N s.dx s.h ((step s dt).1.h)] ∧
    (step s dt).1.h_old = (step s dt).1.h := by
  obtain ⟨e3, e4, hbl, hbr, hrec⟩ := step_ok_parts s dt hok
  rw [hrec, hho]
  exact ⟨rfl, rfl, rfl, rfl⟩

/-- Witness for C7 on a concrete PEC cavity with `dt = 1`. -/
theorem c7_witness :
    (step sPec 1).1.energyE =
      sPec.energyE ++ [energyEVal sPec.N sPec.dx sPec.eps ((step sPec 1).1.e)] ∧
    (step sPec 1).1.energyH =
      sPec.energyH ++ [energyHVal sPec.N sPec.dx sPec.h ((step sPec 1).1.h)] ∧
    (step sPec 1).1.energy =
      sPec.energy ++ [energyEVal sPec.N sPec.dx sPec.eps ((step sPec 1).1.e) +
        energyHVal sPec.N sPec.dx sPec.h ((step sPec 1).1.h)] ∧
    (step sPec 1).1.h_old = (step sPec 1).1.h :=
  c7_energy_accounting sPec 1 rfl rfl

/-- Counterexample to claim C2 as stated: with periodic bounds, on the
5-node state `sPer` with pre-step `e = [0,1,0,3,0]`, the post-step edge
values are `e[0] = -3` and `e[4] = -1`, while the PRE-update second-to-last
and second samples are `e[3] = 3` and `e[1] = 1`: the code copies the
POST-update interior neighbours (`self.e[-2]`, `self.e[1]` at
boundary-application time), not the pre-update ones. -/
theorem c2_counterexample :
    (step sPer 1).1.e 0 ≠ sPer.e 3 ∧ (step sPer 1).1.e 4 ≠ sPer.e 1 := by
  constructor <;>
  norm_num [step, finish, eAfterUpdate, eCore, ePlainStage, plainE,
    hAfterSource, hStep, eSrc, boundLeft_periodic, boundRight_periodic, upd,
    sPer, set_initial_condition, init, energyEVal, energyHVal, MU0, EPS0, C0]

/-- Claim C2 amended: with `bounds = (periodic, periodic)`, every completed
step ends with `E[0]` equal to the POST-update value of the second-to-last
sample and `E[last]` equal to the POST-update value of the second sample
(their values at boundary-application time, i.e. after the E update and the
E-source injection), not the pre-update values. -/
theorem c2_amended_periodic_copies_post_update (s : FDTD1D) (dt : ℚ)
    (hb : s.bounds = ("periodic", "periodic")) (hN : 2 ≤ s.N)
    (hok : (step s dt).2 = none) :
    (step s dt).1.e 0 = eAfterUpdate s dt (s.N - 2) ∧
    (step s dt).1.e (s.N - 1) = eAfterUpdate s dt 1 := by
  obtain ⟨e3, e4, hbl, hbr, hrec⟩ := step_ok_parts s dt hok
  rw [hb] at hbl hbr
  rw [boundLeft_periodic] at hbl
  rw [boundRight_periodic] at hbr
  injection hbl with hbl'
  injection hbr with hbr'
  subst hbl' hbr'
  rw [hrec]
  have h01 : (0 : ℕ) ≠ s.N - 1 := by omega
  constructor
  · show upd _ (s.N - 1) _ 0 = _
    simp [upd, h01]
  · show upd _ (s.N - 1) _ (s.N - 1) = _
    simp [upd]

/-- Witness for the amended C2 on the concrete periodic state `sPer`. -/
theorem c2_witness :
    (step sPer 1).1.e 0 = eAfterUpdate sPer 1 (sPer.N - 2) ∧
    (step sPer 1).1.e (sPer.N - 1) = eAfterUpdate sPer 1 1 :=
  c2_amended_periodic_copies_post_update sPer 1 rfl (by norm_num [sPer,
    set_initial_condition, init]) rfl

/-- Claim C3: with boundary policy `mur` at an edge, the post-step edge
value is `snapshot + ((C0*dt - dx)/(C0*dt + dx)) * (neighbour - edge)`,
where the snapshot is the value captured in step 1 of the cycle (the
pre-step second sample `e[1]` on the left, second-to-last `e[-2]` on the
right) and neighbour/edge are the values at boundary-application time
(after the E update and the E source; for the right edge, after the left
boundary has been applied). -/
theorem c3_mur_boundary_formula (s : FDTD1D) (dt : ℚ)
    (hok : (step s dt).2 = none) (hN : 2 ≤ s.N) :
    (s.bounds.1 = "mur" →
      (step s dt).1.e 0 =
        s.e 1 + (C0 * dt - s.dx) / (C0 * dt + s.dx) *
          (eAfterUpdate s dt 1 - eAfterUpdate s dt 0)) ∧
    (s.bounds.2 = "mur" →
      (step s dt).1.e (s.N - 1) =
        s.e (s.N - 2) + (C0 * dt - s.dx) / (C0 * dt + s.dx) *
          (eAfterLeftBound s dt (s.N - 2) - eAfterLeftBound s dt (s.N - 1))) := by
  obtain ⟨e3, e4, hbl, hbr, hrec⟩ := step_ok_parts s dt hok
  have hALB := eAfterLeftBound_of_some s dt e3 hbl
  constructor
  · intro hb1
    rw [hb1, boundLeft_mur] at hbl
    injection hbl with hbl'
    rw [hrec]
    show e4 0 = _
    have h01 : (0 : ℕ) ≠ s.N - 1 := by omega
    rw [boundRight_apply_ne _ _ _ _ _ _ _ _ hbr 0 h01, ← hbl']
    simp [upd]
  · intro hb2
    rw [hb2, boundRight_mur] at hbr
    injection hbr with hbr'
    rw [hrec]
    show e4 (s.N - 1) = _
    rw [← hbr', hALB]
    simp [upd]

/-- Witness for C3 on the concrete Mur-bounded state `sMur` with `dt = 1`. -/
theorem c3_witness :
    (sMur.bounds.1 = "mur" →
      (step sMur 1).1.e 0 =
        sMur.e 1 + (C0 * 1 - sMur.dx) / (C0 * 1 + sMur.dx) *
          (eAfterUpdate sMur 1 1 - eAfterUpdate sMur 1 0)) ∧
    (sMur.bounds.2 = "mur" →
      (step sMur 1).1.e (sMur.N - 1) =
        sMur.e (sMur.N - 2) + (C0 * 1 - sMur.dx) / (C0 * 1 + sMur.dx) *
          (eAfterLeftBound sMur 1 (sMur.N - 2) -
            eAfterLeftBound sMur 1 (sMur.N - 1))) :=
  c3_mur_boundary_formula sMur 1 rfl
    (by norm_num [sMur, set_initial_condition, init])

/-- Claim C10: when `step(dt)` raises on an unrecognized boundary token the
step is not atomic.  Part one (unrecognized left token): the H update with
source injection, the full E update with source injection, and both `dt/2`
clock advances are applied and remain applied, while the three energy
sequences and `h_old` are untouched.  Part two (recognized left token,
unrecognized right token): additionally the left boundary has been applied
(`eAfterLeftBound`).  The `hmc` hypothesis excludes the unrelated
coefficient `IndexError` path, impossible for API-produced states. -/
theorem c10_nonatomic_step_on_bad_token (s : FDTD1D) (dt : ℚ)
    (hmc : s.material_regions = [] ∨
      (s.material_coefficients).isSome = true) :
    (¬ recognized s.bounds.1 →
      (step s dt).2 = some "Unknown boundary condition" ∧
      (step s dt).1.e = eAfterUpdate s dt ∧
      (step s dt).1.h = hAfterSource s dt ∧
      (step s dt).1.J = Jafter s dt ∧
      (step s dt).1.time = s.time + dt / 2 + dt / 2 ∧
      (step s dt).1.energyE = s.energyE ∧
      (step s dt).1.energyH = s.energyH ∧
      (step s dt).1.energy = s.energy ∧
      (step s dt).1.h_old = s.h_old) ∧
    (recognized s.bounds.1 → ¬ recognized s.bounds.2 →
      (step s dt).2 = some "Unknown boundary condition" ∧
      (step s dt).1.e = eAfterLeftBound s dt ∧
      (step s dt).1.h = hAfterSource s dt ∧
      (step s dt).1.J = Jafter s dt ∧
      (step s dt).1.time = s.time + dt / 2 + dt / 2 ∧
      (step s dt).1.energyE = s.energyE ∧
      (step s dt).1.energyH = s.energyH ∧
      (step s dt).1.energy = s.energy ∧
      (step s dt).1.h_old = s.h_old) := by
  rw [step_eq_finish s dt hmc]
  constructor
  · intro hb1
    rw [finish_eq_of_left_none s dt _ _ _
      (boundLeft_unrecognized _ _ _ _ _ _ _ hb1)]
    exact ⟨rfl, rfl, rfl, rfl, rfl, rfl, rfl, rfl, rfl⟩
  · intro hb1 hb2
    obtain ⟨e3, hbl⟩ := boundLeft_some_of_recognized s.bounds.1 (s.e 1) s.dx
      s.N dt (hAfterSource s dt) (eAfterUpdate s dt) hb1
    rw [finish_eq_of_right_none s dt _ _ _ _ hbl
      (boundRight_unrecognized _ _ _ _ _ _ _ hb2)]
    refine ⟨rfl, ?_, rfl, rfl, rfl, rfl, rfl, rfl, rfl⟩
    show e3 = eAfterLeftBound s dt
    rw [eAfterLeftBound_of_some s dt e3 hbl]

/-- Witness for C10: part one at `sBadLeft` (left token `dirichlet`), part
two at `sBadRight` (left `pec`, right `dirichlet`), both with `dt = 1`. -/
theorem c10_witness :
    ((step sBadLeft 1).2 = some "Unknown boundary condition" ∧
      (step sBadLeft 1).1.e = eAfterUpdate sBadLeft 1 ∧
      (step sBadLeft 1).1.h = hAfterSource sBadLeft 1 ∧
      (step sBadLeft 1).1.J = Jafter sBadLeft 1 ∧
      (step sBadLeft 1).1.time = sBadLeft.time + 1 / 2 + 1 / 2 ∧
      (step sBadLeft 1).1.energyE = sBadLeft.energyE ∧
      (step sBadLeft 1).1.energyH = sBadLeft.energyH ∧
      (step sBadLeft 1).1.energy = sBadLeft.energy ∧
      (step sBadLeft 1).1.h_old = sBadLeft.h_old) ∧
    ((step sBadRight 1).2 = some "Unknown boundary condition" ∧
      (step sBadRight 1).1.e = eAfterLeftBound sBadRight 1 ∧
      (step sBadRight 1).1.h = hAfterSource sBadRight 1 ∧
      (step sBadRight 1).1.J = Jafter sBadRight 1 ∧
      (step sBadRight 1).1.time = sBadRight.time + 1 / 2 + 1 / 2 ∧
      (step sBadRight 1).1.energyE = sBadRight.energyE ∧
      (step sBadRight 1).1.energyH = sBadRight.energyH ∧
      (step sBadRight 1).1.energy = sBadRight.energy ∧
      (step sBadRight 1).1.h_old = sBadRight.h_old) :=
  ⟨(c10_nonatomic_step_on_bad_token sBadLeft 1 (Or.inl rfl)).1 (by decide),
   (c10_nonatomic_step_on_bad_token sBadRight 1 (Or.inl rfl)).2 (by decide)
     (by decide)⟩

theorem addTotalfield_eq_none (s : FDTD1D) (xs : ℚ) (f : ℚ → ℚ → ℚ)
    (hxs : ∀ i, i < s.N → s.xE i ≤ xs) : addTotalfield s xs f = none := by
  unfold addTotalfield
  have hfind : (List.range s.N).find? (fun i => decide (xs < s.xE i))
      = none := by
    rw [List.find?_eq_none]
    intro i hi
    simp only [decide_eq_true_eq]
    exact not_lt.mpr (hxs i (List.mem_range.mp hi))
  rw [hfind]

/-- Counterexample to claim C5 as stated: on the 4-node grid `sSmall` with
coordinates 0..3, the position `xs = 5` is at/beyond the last coordinate
(first conjunct), yet `add_totalfield` is not a silent no-op: the index
lookup `np.where(self.xE > xs)[0][0]` raises `IndexError` (modelled as
`none`, second conjunct). -/
theorem c5_counterexample :
    (∀ i, i < sSmall.N → sSmall.xE i ≤ 5) ∧
    addTotalfield sSmall 5 (fun _ _ => 0) = none := by
  have hxs : ∀ i, i < sSmall.N → sSmall.xE i ≤ 5 := by
    intro i hi
    show ((i : ℚ)) ≤ 5
    have h4 : i < 4 := hi
    have : (i : ℚ) < 4 := by exact_mod_cast h4
    linarith
  exact ⟨hxs, addTotalfield_eq_none sSmall 5 _ hxs⟩

/-- Claim C5 amended: for every position `xs` at or beyond the last E-node
coordinate (no grid coordinate exceeds `xs`), `add_totalfield(xs, waveform)`
raises `IndexError` — the lookup of the first E node whose coordinate
exceeds `xs` finds nothing and indexing the empty match fails.  Nothing is
registered; it is NOT a silent no-op (unlike degenerate material ranges,
which are). -/
theorem c5_amended_out_of_domain_source_errors (s : FDTD1D) (xs : ℚ)
    (f : ℚ → ℚ → ℚ) (hxs : ∀ i, i < s.N → s.xE i ≤ xs) :
    addTotalfield s xs f = none :=
  addTotalfield_eq_none s xs f hxs

/-- Witness for the amended C5 at the concrete out-of-domain call. -/
theorem c5_witness : addTotalfield sSmall 6 (fun _ t => t) = none :=
  c5_amended_out_of_domain_source_errors sSmall 6 (fun _ t => t)
    (by
      intro i hi
      show ((i : ℚ)) ≤ 6
      have h4 : i < 4 := hi
      have : (i : ℚ) < 4 := by exact_mod_cast h4
      linarith)

/-- Counterexample to claim C9 as stated: on the plain PEC state `sPec`, a
completed `step` call has a nonempty external-effect trace — the source's
lines 190-199 plot E and H and block in `plt.pause(0.01)` inside `step`
itself, so the core does render on its own. -/
theorem c9_counterexample : stepTrace sPec 1 ≠ [] := by
  unfold stepTrace
  rw [if_pos (show (step sPec 1).2 = none from rfl)]
  simp

/-- Claim C9 amended: far from performing no rendering, every completed
`step(dt)` call itself renders: its effect trace contains the E-field plot
and the blocking `plt.pause(0.01)`.  No observer callback exists in the
code; the plotting is unconditional (lines 190-199). -/
theorem c9_amended_step_renders (s : FDTD1D) (dt : ℚ)
    (hok : (step s dt).2 = none) :
    VizEffect.plotE ∈ stepTrace s dt ∧
    VizEffect.pause (1 / 100) ∈ stepTrace s dt := by
  unfold stepTrace
  rw [if_pos hok]
  constructor <;> simp

/-- Witness for the amended C9 at the concrete PEC state. -/
theorem c9_witness :
    VizEffect.plotE ∈ stepTrace sPec 1 ∧
    VizEffect.pause (1 / 100) ∈ stepTrace sPec 1 :=
  c9_amended_step_renders sPec 1 rfl

theorem twoMulSum (g : ℕ → ℚ) :
    ((List.range 6).map (fun p => 2 * g p)).sum =
      2 * ((List.range 6).map g).sum := by
  have h6 : List.range 6 = [0, 1, 2, 3, 4, 5] := rfl
  simp only [h6, List.map_cons, List.map_nil, List.sum_cons, List.sum_nil]
  ring

/-- Claim C6: for a single-region `set_material_region([(start, end, Einf,
cond)], dt)` call, the stored coefficients satisfy exactly, per pole `p`
over the fixed silver pole set:
`k_p = (1 + a_p*dt/2)/(1 - a_p*dt/2)`,
`beta_p = (eps0*c_p*dt)/(1 - a_p*dt/2)`,
`denom = 2*eps0*Einf + 2*Σ Re(beta_p) + cond*dt` and
`coef = (2*eps0*Einf + 2*Σ Re(beta_p) - cond*dt)/denom`. -/
theorem c6_dispersion_coefficients (s : FDTD1D) (sx ex Einf cond dt : ℚ) :
    (setMaterialRegion s [(sx, ex, Einf, cond)] dt).material_coefficients =
      some
        (fun p => (1 + aSilver p * CQ.ofRat dt / CQ.ofRat 2) /
            (1 - aSilver p * CQ.ofRat dt / CQ.ofRat 2),
         fun p => CQ.ofRat EPS0 * cSilver p * CQ.ofRat dt /
            (1 - aSilver p * CQ.ofRat dt / CQ.ofRat 2),
         2 * EPS0 * Einf +
            2 * ((List.range 6).map (fun p =>
              (CQ.ofRat EPS0 * cSilver p * CQ.ofRat dt /
                (1 - aSilver p * CQ.ofRat dt / CQ.ofRat 2)).re)).sum +
            cond * dt,
         (2 * EPS0 * Einf +
            2 * ((List.range 6).map (fun p =>
              (CQ.ofRat EPS0 * cSilver p * CQ.ofRat dt /
                (1 - aSilver p * CQ.ofRat dt / CQ.ofRat 2)).re)).sum -
            cond * dt) /
         (2 * EPS0 * Einf +
            2 * ((List.range 6).map (fun p =>
              (CQ.ofRat EPS0 * cSilver p * CQ.ofRat dt /
                (1 - aSilver p * CQ.ofRat dt / CQ.ofRat 2)).re)).sum +
            cond * dt)) := by
  show (match ([(sx, ex, Einf, cond)] : List (ℚ × ℚ × ℚ × ℚ)).getLast? with
    | none => s.material_coefficients
    | some rl => some (matCoefs rl dt)) = _
  rw [List.getLast?_singleton]
  show some (matCoefs (sx, ex, Einf, cond) dt) = _
  unfold matCoefs
  dsimp only
  rw [twoMulSum]

theorem ss2 : searchsorted 6 (fun i => (i : ℚ)) 2 = 2 := by
  have h6 : List.range 6 = [0, 1, 2, 3, 4, 5] := rfl
  simp only [searchsorted, h6, List.filter_cons, List.filter_nil,
    decide_eq_true_eq]
  norm_num

theorem ss3 : searchsorted 6 (fun i => (i : ℚ)) 3 = 3 := by
  have h6 : List.range 6 = [0, 1, 2, 3, 4, 5] := rfl
  simp only [searchsorted, h6, List.filter_cons, List.filter_nil,
    decide_eq_true_eq]
  norm_num

theorem ss4 : searchsorted 6 (fun i => (i : ℚ)) 4 = 4 := by
  have h6 : List.range 6 = [0, 1, 2, 3, 4, 5] := rfl
  simp only [searchsorted, h6, List.filter_cons, List.filter_nil,
    decide_eq_true_eq]
  norm_num

theorem ss5 : searchsorted 6 (fun i => (i : ℚ)) 5 = 5 := by
  have h6 : List.range 6 = [0, 1, 2, 3, 4, 5] := rfl
  simp only [searchsorted, h6, List.filter_cons, List.filter_nil,
    decide_eq_true_eq]
  norm_num

theorem sDisp_iEin : sDisp.iEin = 2 := ss2

theorem sDisp_iEout : sDisp.iEout = 4 := ss4

theorem sDisp_eps : sDisp.eps = fun i => if 2 ≤ i ∧ i < 4 then 5 else 1 := by
  have hfold : sDisp.eps = fun i =>
      if searchsorted 6 (fun j => (j : ℚ)) 2 ≤ i ∧
         i < searchsorted 6 (fun j => (j : ℚ)) 4
      then 5 else 1 := rfl
  simp only [hfold, ss2, ss4]

theorem sDisp_cond : sDisp.cond = fun i =>
    if 2 ≤ i ∧ i < 4 then 0 else 0 := by
  have hfold : sDisp.cond = fun i =>
      if searchsorted 6 (fun j => (j : ℚ)) 2 ≤ i ∧
         i < searchsorted 6 (fun j => (j : ℚ)) 4
      then 0 else 0 := rfl
  simp only [hfold, ss2, ss4]

/-- Counterexample to claim C1 as stated: on the dispersive state `sDisp`
(silver region on grid indices 2..3, unit E sample at node 4 right of the
region, `dt = 1`), the post-step auxiliary current `J_0[4]` is 0 — the
source updates J (line 145) BEFORE the right-of-region E update (lines
148-151), so it sees `e - e_old = 0` at node 4 — whereas the claim's
formula `k_0*J_0[4] + beta_0*(E_new[4] - E_old[4])/dt` with the fully
post-step `E_new[4] = -1` gives the nonzero value `-2*beta_0`. -/
theorem c1_counterexample :
    (step sDisp 1).1.J 0 4 ≠
      kOf sDisp 0 * sDisp.J 0 4 +
        betaOf sDisp 0 * CQ.ofRat (((step sDisp 1).1.e 4 - sDisp.e 4) / 1) := by
  have htf : sDisp.total_field = [] := rfl
  have hN : sDisp.N = 6 := rfl
  have he : sDisp.e = fun i => if i = 4 then 1 else 0 := rfl
  have hh : sDisp.h = fun _ => 0 := rfl
  have hdx : sDisp.dx = 1 - 0 := rfl
  have hEA : eAfterUpdate sDisp 1 4 = -1 := by
    rw [show eAfterUpdate sDisp 1 =
        eSrc sDisp 1 (eRightStage sDisp 1 (hAfterSource sDisp 1)
          (matCoefs (2, 4, 5, 0) 1).1 (matCoefs (2, 4, 5, 0) 1).2.2.1
          (matCoefs (2, 4, 5, 0) 1).2.2.2) from rfl]
    rw [eSrc_of_none sDisp 1 _ htf, hAfterSource_of_none sDisp 1 htf]
    norm_num [eRightStage, eDispStage, eLeftStage, plainE, hStep, sDisp_iEin,
      sDisp_iEout, hN, hdx, he, hh, sDisp_eps, sDisp_cond, MU0, EPS0]
  have hE4 : (step sDisp 1).1.e 4 = -1 := by
    rw [step_ok_e_interior sDisp 1 4 rfl (by decide) (by decide)]
    exact hEA
  have hD : eDispStage sDisp 1 (hAfterSource sDisp 1)
      (matCoefs (2, 4, 5, 0) 1).1 (matCoefs (2, 4, 5, 0) 1).2.2.1
      (matCoefs (2, 4, 5, 0) 1).2.2.2 4 = 1 := by
    norm_num [eDispStage, eLeftStage, sDisp_iEin, sDisp_iEout, he]
  have hJ : (step sDisp 1).1.J 0 4 = 0 := by
    rw [step_fst_J]
    rw [show Jafter sDisp 1 =
        Jstage sDisp 1 (hAfterSource sDisp 1) (matCoefs (2, 4, 5, 0) 1).1
          (matCoefs (2, 4, 5, 0) 1).2.1 (matCoefs (2, 4, 5, 0) 1).2.2.1
          (matCoefs (2, 4, 5, 0) 1).2.2.2 from rfl]
    unfold Jstage
    rw [hD]
    rw [show sDisp.e 4 = 1 from rfl]
    rw [show sDisp.J 0 4 = (0 : CQ) from rfl]
    rw [show ((1 : ℚ) - 1) / 1 = 0 by norm_num]
    rw [CQ.ofRat_zero, CQ.mul_zero', CQ.mul_zero', CQ.add_zero']
  rw [hJ, hE4]
  rw [show sDisp.J 0 4 = (0 : CQ) from rfl]
  rw [CQ.mul_zero', CQ.zero_add']
  rw [show betaOf sDisp 0 = CQ.ofRat EPS0 * cSilver 0 * CQ.ofRat 1 /
      (1 - aSilver 0 * CQ.ofRat 1 / CQ.ofRat 2) from rfl]
  intro hcon
  have him := congrArg CQ.im hcon
  simp only [CQ.zero_im, CQ.mul_im, CQ.mul_re, CQ.div_im, CQ.div_re,
    CQ.sub_re, CQ.sub_im, CQ.one_re, CQ.one_im, CQ.ofRat_re, CQ.ofRat_im,
    cSilver, aSilver, eVcharge, EPS0] at him
  norm_num [show sDisp.e 4 = 1 from rfl] at him

/-- Claim C1 amended: in the dispersive path every pole's auxiliary current
is updated over the full grid with
`J_p[i] = k_p*J_p[i] + beta_p*(E_mid[i] - E_old[i])/dt`, where `E_mid` is
the E array after the left-of-region and in-region updates but BEFORE the
right-of-region update, the E-source injection and the boundary conditions
(`eDispStage`), and `E_old` is the pre-step snapshot.  In particular, for
every node `i` at or right of both region indices the increment is zero and
the new `J_p[i]` is just `k_p*J_p[i]`. -/
theorem c1_amended_J_update_midstage (s : FDTD1D) (dt : ℚ)
    (hreg : s.material_regions ≠ [])
    (hc : (s.material_coefficients).isSome = true) (p i : ℕ) :
    (step s dt).1.J p i =
      kOf s p * s.J p i + betaOf s p * CQ.ofRat
        ((eDispStage s dt (hAfterSource s dt) (kOf s) (denOf s) (coefOf s) i -
          s.e i) / dt) ∧
    (s.iEin ≤ i → s.iEout ≤ i →
      (step s dt).1.J p i = kOf s p * s.J p i) := by
  rcases hmr : s.material_regions with _ | ⟨r, rest⟩
  · exact absurd hmr hreg
  rcases hmc : s.material_coefficients with _ | c
  · rw [hmc] at hc
    simp at hc
  have hk : kOf s = c.1 := by unfold kOf; rw [hmc]
  have hbeta : betaOf s = c.2.1 := by unfold betaOf; rw [hmc]
  have hden : denOf s = c.2.2.1 := by unfold denOf; rw [hmc]
  have hcoef : coefOf s = c.2.2.2 := by unfold coefOf; rw [hmc]
  have hJ : (step s dt).1.J =
      Jstage s dt (hAfterSource s dt) c.1 c.2.1 c.2.2.1 c.2.2.2 := by
    rw [step_fst_J]
    unfold Jafter Jcore
    rw [hmr, hmc]
  rw [hJ, hk, hbeta, hden, hcoef]
  constructor
  · rfl
  · intro h1 h2
    have hc1 : ¬ (s.iEin ≤ i ∧ i < s.iEout) := by omega
    have hc2 : ¬ (1 ≤ i ∧ i < s.iEin) := by omega
    have hd : eDispStage s dt (hAfterSource s dt) c.1 c.2.2.1 c.2.2.2 i
        = s.e i := by
      unfold eDispStage eLeftStage
      rw [if_neg hc1, if_neg hc2]
    show c.1 p * s.J p i + c.2.1 p * CQ.ofRat
        ((eDispStage s dt (hAfterSource s dt) c.1 c.2.2.1 c.2.2.2 i -
          s.e i) / dt) = c.1 p * s.J p i
    rw [hd, sub_self, zero_div, CQ.ofRat_zero, CQ.mul_zero', CQ.add_zero']

/-- Witness for the amended C1 at the concrete dispersive state `sDisp`,
pole 0, node 4 (right of the region). -/
theorem c1_witness :
    ((step sDisp 1).1.J 0 4 =
      kOf sDisp 0 * sDisp.J 0 4 + betaOf sDisp 0 * CQ.ofRat
        ((eDispStage sDisp 1 (hAfterSource sDisp 1) (kOf sDisp) (denOf sDisp)
          (coefOf sDisp) 4 - sDisp.e 4) / 1) ∧
    (sDisp.iEin ≤ 4 → sDisp.iEout ≤ 4 →
      (step sDisp 1).1.J 0 4 = kOf sDisp 0 * sDisp.J 0 4)) :=
  c1_amended_J_update_midstage sDisp 1 (by decide) (by decide) 0 4

theorem finish_fst_material_regions (s : FDTD1D) (dt : ℚ) (h2 e2 : ℕ → ℚ)
    (Jn : ℕ → ℕ → CQ) :
    (finish s dt h2 e2 Jn).1.material_regions = s.material_regions := by
  unfold finish
  split
  · rfl
  · split <;> rfl

theorem step_fst_material_regions (s : FDTD1D) (dt : ℚ) :
    (step s dt).1.material_regions = s.material_regions := by
  unfold step
  rcases hmr : s.material_regions with _ | ⟨r, rest⟩ <;>
    rcases hmc : s.material_coefficients with _ | c <;>
      simp [hmr, hmc, finish_fst_material_regions]

theorem sOne_eps : sOneRegion.eps = fun i =>
    if 2 ≤ i ∧ i < 3 then 1 else 1 := by
  have hfold : sOneRegion.eps = fun i =>
      if searchsorted 6 (fun j => (j : ℚ)) 2 ≤ i ∧
         i < searchsorted 6 (fun j => (j : ℚ)) 3
      then 1 else 1 := rfl
  simp only [hfold, ss2, ss3]

theorem sTwo_eps : sTwoRegions.eps = fun i =>
    if 4 ≤ i ∧ i < 5 then 2 else if 2 ≤ i ∧ i < 3 then 1 else 1 := by
  have hfold : sTwoRegions.eps = fun i =>
      if searchsorted 6 (fun j => (j : ℚ)) 4 ≤ i ∧
         i < searchsorted 6 (fun j => (j : ℚ)) 5
      then 2
      else if searchsorted 6 (fun j => (j : ℚ)) 2 ≤ i ∧
         i < searchsorted 6 (fun j => (j : ℚ)) 3
      then 1 else 1 := rfl
  simp only [hfold, ss2, ss3, ss4, ss5]

theorem sOne_cond : sOneRegion.cond = fun i =>
    if 2 ≤ i ∧ i < 3 then 0 else 0 := by
  have hfold : sOneRegion.cond = fun i =>
      if searchsorted 6 (fun j => (j : ℚ)) 2 ≤ i ∧
         i < searchsorted 6 (fun j => (j : ℚ)) 3
      then 0 else 0 := rfl
  simp only [hfold, ss2, ss3]

theorem sTwo_cond : sTwoRegions.cond = fun i =>
    if 4 ≤ i ∧ i < 5 then 0 else if 2 ≤ i ∧ i < 3 then 0 else 0 := by
  have hfold : sTwoRegions.cond = fun i =>
      if searchsorted 6 (fun j => (j : ℚ)) 4 ≤ i ∧
         i < searchsorted 6 (fun j => (j : ℚ)) 5
      then 0
      else if searchsorted 6 (fun j => (j : ℚ)) 2 ≤ i ∧
         i < searchsorted 6 (fun j => (j : ℚ)) 3
      then 0 else 0 := rfl
  simp only [hfold, ss2, ss3, ss4, ss5]

theorem sOne_iEin : sOneRegion.iEin = 2 := ss2

theorem sOne_iEout : sOneRegion.iEout = 3 := ss3

theorem sTwo_iEin : sTwoRegions.iEin = 2 := ss2

theorem sTwo_iEout : sTwoRegions.iEout = 3 := ss3

/-- Counterexample to claim C4 as stated: `sTwoRegions` configures the two
regions `[(2,3,1,0), (4,5,2,0)]`, `sOneRegion` only the first one, on
otherwise identical 6-node states.  One step later node 4 holds 0 in the
two-region run but -1 in the one-region run, because `set_material_region`
wrote `eps[4] = 2` for the second region (and derives the recursion
coefficients from the LAST region): the additional region is not a no-op
for the stepper's field evolution. -/
theorem c4_counterexample :
    (step sTwoRegions 1).1.e 4 ≠ (step sOneRegion 1).1.e 4 := by
  have hone : (step sOneRegion 1).1.e 4 = -1 := by
    rw [step_ok_e_interior sOneRegion 1 4 rfl (by decide) (by decide)]
    rw [show eAfterUpdate sOneRegion 1 =
        eSrc sOneRegion 1 (eRightStage sOneRegion 1
          (hAfterSource sOneRegion 1)
          (matCoefs (2, 3, 1, 0) 1).1 (matCoefs (2, 3, 1, 0) 1).2.2.1
          (matCoefs (2, 3, 1, 0) 1).2.2.2) from rfl]
    rw [eSrc_of_none sOneRegion 1 _ rfl, hAfterSource_of_none sOneRegion 1 rfl]
    norm_num [eRightStage, eDispStage, eLeftStage, plainE, hStep, sOne_iEin,
      sOne_iEout, show sOneRegion.N = 6 from rfl,
      show sOneRegion.dx = 1 - 0 from rfl,
      show sOneRegion.e = fun i => if i = 4 then 1 else 0 from rfl,
      show sOneRegion.h = fun _ => 0 from rfl, sOne_eps, sOne_cond, MU0, EPS0]
  have htwo : (step sTwoRegions 1).1.e 4 = 0 := by
    rw [step_ok_e_interior sTwoRegions 1 4 rfl (by decide) (by decide)]
    rw [show eAfterUpdate sTwoRegions 1 =
        eSrc sTwoRegions 1 (eRightStage sTwoRegions 1
          (hAfterSource sTwoRegions 1)
          (matCoefs (4, 5, 2, 0) 1).1 (matCoefs (4, 5, 2, 0) 1).2.2.1
          (matCoefs (4, 5, 2, 0) 1).2.2.2) from rfl]
    rw [eSrc_of_none sTwoRegions 1 _ rfl,
      hAfterSource_of_none sTwoRegions 1 rfl]
    norm_num [eRightStage, eDispStage, eLeftStage, plainE, hStep, sTwo_iEin,
      sTwo_iEout, show sTwoRegions.N = 6 from rfl,
      show sTwoRegions.dx = 1 - 0 from rfl,
      show sTwoRegions.e = fun i => if i = 4 then 1 else 0 from rfl,
      show sTwoRegions.h = fun _ => 0 from rfl, sTwo_eps, sTwo_cond, MU0,
      EPS0]
  rw [hone, htwo]
  norm_num

theorem finish_mr_record (s : FDTD1D) (A B : List (ℚ × ℚ × ℚ × ℚ)) (dt : ℚ)
    (h2 e2 : ℕ → ℚ) (Jn : ℕ → ℕ → CQ) :
    finish { s with material_regions := A } dt h2 e2 Jn =
      ({ (finish { s with material_regions := B } dt h2 e2 Jn).1 with
          material_regions := A },
       (finish { s with material_regions := B } dt h2 e2 Jn).2) := by
  rcases hbl : boundLeft s.bounds.1 (s.e 1) s.dx s.N dt h2 e2 with _ | e3
  · rw [finish_eq_of_left_none { s with material_regions := A } dt h2 e2 Jn
      hbl, finish_eq_of_left_none { s with material_regions := B } dt h2 e2
      Jn hbl]
  · rcases hbr : boundRight s.bounds.2 (s.e (s.N - 2)) s.dx s.N dt h2 e3 with
      _ | e4
    · rw [finish_eq_of_right_none { s with material_regions := A } dt h2 e2
        e3 Jn hbl hbr, finish_eq_of_right_none { s with material_regions := B }
        dt h2 e2 e3 Jn hbl hbr]
    · rw [finish_eq_of_some { s with material_regions := A } dt h2 e2 e3 e4
        Jn hbl hbr, finish_eq_of_some { s with material_regions := B } dt h2
        e2 e3 e4 Jn hbl hbr]

theorem step_mr_head_mc (s : FDTD1D) (r : ℚ × ℚ × ℚ × ℚ)
    (rest : List (ℚ × ℚ × ℚ × ℚ)) (dt : ℚ)
    (mc : Option ((ℕ → CQ) × (ℕ → CQ) × ℚ × ℚ)) :
    step { s with material_regions := r :: rest, material_coefficients := mc } dt =
      ({ (step { s with material_regions := [r], material_coefficients := mc } dt).1 with
          material_regions := r :: rest },
       (step { s with material_regions := [r], material_coefficients := mc } dt).2) := by
  rcases mc with _ | c
  · rfl
  · rw [step_eq_finish { s with material_regions := r :: rest, material_coefficients := some c } dt (Or.inr rfl)]
    rw [step_eq_finish { s with material_regions := [r], material_coefficients := some c } dt (Or.inr rfl)]
    exact finish_mr_record { s with material_coefficients := some c }
      (r :: rest) [r] dt _ _ _

theorem step_mr_head (s : FDTD1D) (r : ℚ × ℚ × ℚ × ℚ)
    (rest : List (ℚ × ℚ × ℚ × ℚ)) (dt : ℚ) :
    step { s with material_regions := r :: rest } dt =
      ({ (step { s with material_regions := [r] } dt).1 with
          material_regions := r :: rest },
       (step { s with material_regions := [r] } dt).2) :=
  step_mr_head_mc s r rest dt s.material_coefficients

theorem stepN_mr_head (r : ℚ × ℚ × ℚ × ℚ) (rest : List (ℚ × ℚ × ℚ × ℚ))
    (dt : ℚ) : ∀ (n : ℕ) (s : FDTD1D),
    stepN dt n { s with material_regions := r :: rest } =
      { stepN dt n { s with material_regions := [r] } with
        material_regions := r :: rest }
  | 0, s => rfl
  | n + 1, s => by
    have hmr2 : (step { s with material_regions := [r] } dt).1.material_regions
        = [r] := by
      rw [step_fst_material_regions]
    have hX : { (step { s with material_regions := [r] } dt).1 with
        material_regions := ([r] : List (ℚ × ℚ × ℚ × ℚ)) } =
        (step { s with material_regions := [r] } dt).1 := by
      ext : 1 <;> first | rfl | exact hmr2.symm
    show stepN dt n (step { s with material_regions := r :: rest } dt).1 =
      { stepN dt n (step { s with material_regions := [r] } dt).1 with
        material_regions := r :: rest }
    rw [show (step { s with material_regions := r :: rest } dt).1 =
        { (step { s with material_regions := [r] } dt).1 with
          material_regions := r :: rest } by rw [step_mr_head s r rest dt]]
    rw [stepN_mr_head r rest dt n ((step { s with material_regions := [r] } dt).1)]
    rw [hX]

/-- Claim C4 amended: the stepper consults only the FIRST entry of the
stored region list: two states that are identical except for the tail of
`material_regions` (same head region) produce identical field evolution
(E, H, J and all three energy sequences) for every number of steps.  The
claim's stronger reading — that configuring extra regions via
`set_material_region` leaves evolution identical to configuring only the
first — is false (see the counterexample): the configuration call writes
`eps`/`cond` for every region and derives the recursion coefficients from
the LAST region, and those arrays and coefficients do alter stepping. -/
theorem c4_amended_stepper_reads_first_region (s : FDTD1D)
    (r : ℚ × ℚ × ℚ × ℚ) (rest : List (ℚ × ℚ × ℚ × ℚ)) (dt : ℚ) (n : ℕ) :
    (stepN dt n { s with material_regions := r :: rest }).e =
      (stepN dt n { s with material_regions := [r] }).e ∧
    (stepN dt n { s with material_regions := r :: rest }).h =
      (stepN dt n { s with material_regions := [r] }).h ∧
    (stepN dt n { s with material_regions := r :: rest }).J =
      (stepN dt n { s with material_regions := [r] }).J ∧
    (stepN dt n { s with material_regions := r :: rest }).energyE =
      (stepN dt n { s with material_regions := [r] }).energyE ∧
    (stepN dt n { s with material_regions := r :: rest }).energyH =
      (stepN dt n { s with material_regions := [r] }).energyH ∧
    (stepN dt n { s with material_regions := r :: rest }).energy =
      (stepN dt n { s with material_regions := [r] }).energy := by
  rw [stepN_mr_head r rest dt n s]
  exact ⟨rfl, rfl, rfl, rfl, rfl, rfl⟩

theorem finish_tf_record (s : FDTD1D) (A B : List (ℕ × (ℚ → ℚ → ℚ)))
    (dt : ℚ) (h2 e2 : ℕ → ℚ) (Jn : ℕ → ℕ → CQ) :
    finish { s with total_field := A } dt h2 e2 Jn =
      ({ (finish { s with total_field := B } dt h2 e2 Jn).1 with
          total_field := A },
       (finish { s with total_field := B } dt h2 e2 Jn).2) := by
  rcases hbl : boundLeft s.bounds.1 (s.e 1) s.dx s.N dt h2 e2 with _ | e3
  · rw [finish_eq_of_left_none { s with total_field := A } dt h2 e2 Jn hbl,
      finish_eq_of_left_none { s with total_field := B } dt h2 e2 Jn hbl]
  · rcases hbr : boundRight s.bounds.2 (s.e (s.N - 2)) s.dx s.N dt h2 e3 with
      _ | e4
    · rw [finish_eq_of_right_none { s with total_field := A } dt h2 e2 e3 Jn
        hbl hbr, finish_eq_of_right_none { s with total_field := B } dt h2 e2
        e3 Jn hbl hbr]
    · rw [finish_eq_of_some { s with total_field := A } dt h2 e2 e3 e4 Jn hbl
        hbr, finish_eq_of_some { s with total_field := B } dt h2 e2 e3 e4 Jn
        hbl hbr]

theorem step_tf_zero_aux (s : FDTD1D) (j : ℕ) (f : ℚ → ℚ → ℚ) (dt : ℚ)
    (mr : List (ℚ × ℚ × ℚ × ℚ))
    (mc : Option ((ℕ → CQ) × (ℕ → CQ) × ℚ × ℚ))
    (hwf : ∀ x t, f x t = 0) :
    step { s with total_field := [(j, f)], material_regions := mr, material_coefficients := mc } dt =
      ({ (step { s with total_field := [], material_regions := mr, material_coefficients := mc } dt).1 with
          total_field := [(j, f)] },
       (step { s with total_field := [], material_regions := mr, material_coefficients := mc } dt).2) := by
  have hH : ∀ (mr' : List (ℚ × ℚ × ℚ × ℚ))
      (mc' : Option ((ℕ → CQ) × (ℕ → CQ) × ℚ × ℚ)),
      hAfterSource { s with total_field := [(j, f)], material_regions := mr', material_coefficients := mc' } dt =
        hAfterSource { s with total_field := ([] : List (ℕ × (ℚ → ℚ → ℚ))), material_regions := mr', material_coefficients := mc' } dt := by
    intro mr' mc'
    rw [hAfterSource_of_zero _ j f dt rfl hwf, hAfterSource_of_none _ dt rfl]
    rfl
  have hE : ∀ (mr' : List (ℚ × ℚ × ℚ × ℚ))
      (mc' : Option ((ℕ → CQ) × (ℕ → CQ) × ℚ × ℚ)),
      eAfterUpdate { s with total_field := [(j, f)], material_regions := mr', material_coefficients := mc' } dt =
        eAfterUpdate { s with total_field := ([] : List (ℕ × (ℚ → ℚ → ℚ))), material_regions := mr', material_coefficients := mc' } dt := by
    intro mr' mc'
    unfold eAfterUpdate
    rw [eSrc_of_zero _ j f dt _ rfl hwf, eSrc_of_none _ dt _ rfl, hH mr' mc']
    rfl
  have hJ : ∀ (mr' : List (ℚ × ℚ × ℚ × ℚ))
      (mc' : Option ((ℕ → CQ) × (ℕ → CQ) × ℚ × ℚ)),
      Jafter { s with total_field := [(j, f)], material_regions := mr', material_coefficients := mc' } dt =
        Jafter { s with total_field := ([] : List (ℕ × (ℚ → ℚ → ℚ))), material_regions := mr', material_coefficients := mc' } dt := by
    intro mr' mc'
    unfold Jafter
    rw [hH mr' mc']
    rfl
  rcases mr with _ | ⟨r, rest⟩ <;> rcases mc with _ | c
  · show finish _ dt (hAfterSource _ dt) (eAfterUpdate _ dt) (Jafter _ dt) = _
    rw [hH [] none, hE [] none, hJ [] none]
    exact finish_tf_record
      { s with material_regions := ([] : List (ℚ × ℚ × ℚ × ℚ)), material_coefficients := (none : Option ((ℕ → CQ) × (ℕ → CQ) × ℚ × ℚ)) }
      [(j, f)] [] dt _ _ _
  · show finish _ dt (hAfterSource _ dt) (eAfterUpdate _ dt) (Jafter _ dt) = _
    rw [hH [] (some c), hE [] (some c), hJ [] (some c)]
    exact finish_tf_record
      { s with material_regions := ([] : List (ℚ × ℚ × ℚ × ℚ)), material_coefficients := some c }
      [(j, f)] [] dt _ _ _
  · show (_, some "IndexError") = _
    rw [hH (r :: rest) none]
    rfl
  · show finish _ dt (hAfterSource _ dt) (eAfterUpdate _ dt) (Jafter _ dt) = _
    rw [hH (r :: rest) (some c), hE (r :: rest) (some c),
      hJ (r :: rest) (some c)]
    exact finish_tf_record
      { s with material_regions := r :: rest, material_coefficients := some c }
      [(j, f)] [] dt _ _ _

theorem step_source_zero (s : FDTD1D) (j : ℕ) (f : ℚ → ℚ → ℚ) (dt : ℚ)
    (hwf : ∀ x t, f x t = 0) :
    step { s with total_field := [(j, f)] } dt =
      ({ (step { s with total_field := [] } dt).1 with
          total_field := [(j, f)] },
       (step { s with total_field := [] } dt).2) :=
  step_tf_zero_aux s j f dt s.material_regions s.material_coefficients hwf

theorem stepN_source_zero (j : ℕ) (f : ℚ → ℚ → ℚ) (dt : ℚ)
    (hwf : ∀ x t, f x t = 0) : ∀ (n : ℕ) (s : FDTD1D),
    stepN dt n { s with total_field := [(j, f)] } =
      { stepN dt n { s with total_field := [] } with
        total_field := [(j, f)] }
  | 0, s => rfl
  | n + 1, s => by
    have htf2 : (step { s with total_field := [] } dt).1.total_field
        = [] := by
      rw [step_fst_total_field]
    have hX : { (step { s with total_field := [] } dt).1 with
        total_field := ([] : List (ℕ × (ℚ → ℚ → ℚ))) } =
        (step { s with total_field := [] } dt).1 := by
      ext : 1 <;> first | rfl | exact htf2.symm
    show stepN dt n (step { s with total_field := [(j, f)] } dt).1 =
      { stepN dt n (step { s with total_field := [] } dt).1 with
        total_field := [(j, f)] }
    rw [show (step { s with total_field := [(j, f)] } dt).1 =
        { (step { s with total_field := [] } dt).1 with
          total_field := [(j, f)] } by rw [step_source_zero s j f dt hwf]]
    rw [stepN_source_zero j f dt hwf n
      ((step { s with total_field := [] } dt).1)]
    rw [hX]

/-- Claim C8: a registered source whose waveform returns 0 for every
(position, time) pair produces E, H, J and energy sequences identical to
running the same configuration with no source registered, for every
configuration and every number of steps. -/
theorem c8_zero_source_equivalence (s : FDTD1D) (j : ℕ) (f : ℚ → ℚ → ℚ)
    (dt : ℚ) (n : ℕ) (hwf : ∀ x t, f x t = 0) :
    (stepN dt n { s with total_field := [(j, f)] }).e =
      (stepN dt n { s with total_field := [] }).e ∧
    (stepN dt n { s with total_field := [(j, f)] }).h =
      (stepN dt n { s with total_field := [] }).h ∧
    (stepN dt n { s with total_field := [(j, f)] }).J =
      (stepN dt n { s with total_field := [] }).J ∧
    (stepN dt n { s with total_field := [(j, f)] }).energyE =
      (stepN dt n { s with total_field := [] }).energyE ∧
    (stepN dt n { s with total_field := [(j, f)] }).energyH =
      (stepN dt n { s with total_field := [] }).energyH ∧
    (stepN dt n { s with total_field := [(j, f)] }).energy =
      (stepN dt n { s with total_field := [] }).energy := by
  rw [stepN_source_zero j f dt hwf n s]
  exact ⟨rfl, rfl, rfl, rfl, rfl, rfl⟩

/-- Witness for C8: the zero-waveform source at index 2 on the periodic
5-node cavity, run for two steps. -/
theorem c8_witness :
    (stepN 1 2 { sPer with total_field := [(2, fun _ _ => (0 : ℚ))] }).e =
      (stepN 1 2 { sPer with total_field := [] }).e ∧
    (stepN 1 2 { sPer with total_field := [(2, fun _ _ => (0 : ℚ))] }).h =
      (stepN 1 2 { sPer with total_field := [] }).h ∧
    (stepN 1 2 { sPer with total_field := [(2, fun _ _ => (0 : ℚ))] }).J =
      (stepN 1 2 { sPer with total_field := [] }).J ∧
    (stepN 1 2 { sPer with total_field := [(2, fun _ _ => (0 : ℚ))] }).energyE =
      (stepN 1 2 { sPer with total_field := [] }).energyE ∧
    (stepN 1 2 { sPer with total_field := [(2, fun _ _ => (0 : ℚ))] }).energyH =
      (stepN 1 2 { sPer with total_field := [] }).energyH ∧
    (stepN 1 2 { sPer with total_field := [(2, fun _ _ => (0 : ℚ))] }).energy =
      (stepN 1 2 { sPer with total_field := [] }).energy :=
  c8_zero_source_equivalence sPer 2 (fun _ _ => (0 : ℚ)) 1 2
    (fun _ _ => rfl)
